import Mathlib

/-!
Verification of the stock price predictor (stock_price_predictor.py).

The development shallowly embeds the program: prices are modelled as
rationals (Python floats), calendar dates as integer day numbers with
explicit civil-calendar conversions mirroring the strftime/strptime
rendering, raw CSV lines as character lists, and every Python operation
that can raise is embedded as an Except / Option valued function whose
error constructor names the exception class that the source would raise.
-/

namespace SPP

/-- Exception classes thrown by the operations embedded below. -/
inductive PyErr where
  | indexError
  | valueError
  | typeError
  | attributeError
deriving DecidableEq, Repr

/-- One parsed CSV record, as built in get_random_rows: the dict with keys
Stock-ID (kept verbatim as the character list of the field), Timestamp
(a calendar date, modelled by its day number) and Stock Price Value
(a real number, modelled as a rational). -/
structure StockRow where
  stockId : List Char
  timestamp : ℤ
  price : ℚ
deriving DecidableEq, Repr

/-- Embedding of Python round-half-to-even of a rational to an integer,
used to model the built-in round(x, 2) after scaling by 100. -/
def roundHalfEven (q : ℚ) : ℤ :=
  if q - ⌊q⌋ < 1/2 then ⌊q⌋
  else if 1/2 < q - ⌊q⌋ then ⌊q⌋ + 1
  else if ⌊q⌋ % 2 = 0 then ⌊q⌋ else ⌊q⌋ + 1

/-- Embedding of round(x, 2) from the source: round to two decimal places. -/
def round2 (x : ℚ) : ℚ := (roundHalfEven (100 * x) : ℚ) / 100

/-- Embedding of sorted(-, reverse=True) on a list of price values:
sort into descending order. Python uses a stable mergesort; on the
deduplicated value lists it is applied to, any comparison sort yields the
same result, so insertion sort is used here. -/
def sortDesc (l : List ℚ) : List ℚ := l.insertionSort (fun a b => b ≤ a)

/-- Embedding of sorted(set(prices), reverse=True) over the prices of the
sampled rows (source lines 99-100): the distinct price values in
descending order. -/
def sorted_unique_prices (rows : List StockRow) : List ℚ :=
  sortDesc ((rows.map StockRow.price).dedup)

/-- Embedding of the append loop of predict_next_values (source lines
112-117): for each predicted value, append a new row copying the Stock-ID
of the current last row and adding one day to its Timestamp. The
getLastD default is never reached: the caller has already indexed
rows[-1], so the list is non-empty. -/
def append_predicted (rows : List StockRow) : List ℚ → List StockRow
  | [] => rows
  | v :: vs =>
    let lastRow := rows.getLastD ⟨[], 0, 0⟩
    append_predicted (rows ++ [⟨lastRow.stockId, lastRow.timestamp + 1, v⟩]) vs

/-- Embedding of predict_next_values (source lines 88-119). The function
has no try/except of its own: indexing rows[-1] on an empty list or the
sorted unique values at position 1 when fewer than two distinct prices
exist raises IndexError past its boundary, modelled by the error result. -/
def predict_next_values (rows : List StockRow) : Except PyErr (List StockRow) :=
  let s := sorted_unique_prices rows
  match rows.getLast? with
  | none => .error .indexError
  | some lastRow =>
    match s.get? 1 with
    | none => .error .indexError
    | some p0 =>
      let n := lastRow.price
      let p1 := round2 (p0 + (n - p0) / 2)
      let p2 := round2 (p1 + (p0 - p1) / 4)
      .ok (append_predicted rows [p0, p1, p2])

/-- Total embedding of the indexing rows[-1] used when building the
appended rows: the last row of the window (the caller guarantees the
window is non-empty). -/
def lastRowD (rows : List StockRow) : StockRow := rows.getLastD ⟨[], 0, 0⟩

lemma lastRowD_eq (rows : List StockRow) (h : rows ≠ []) :
    lastRowD rows = rows.getLast h := by
  rw [lastRowD, List.getLastD_eq_getLast?, List.getLast?_eq_getLast rows h,
    Option.getD_some]

lemma lastRowD_mem (rows : List StockRow) (h : rows ≠ []) :
    lastRowD rows ∈ rows := by
  rw [lastRowD_eq rows h]
  exact List.getLast_mem h

lemma append_predicted_eq (rows : List StockRow) (a b c : ℚ) :
    append_predicted rows [a, b, c] =
      rows ++
        [⟨(lastRowD rows).stockId, (lastRowD rows).timestamp + 1, a⟩,
         ⟨(lastRowD rows).stockId, (lastRowD rows).timestamp + 2, b⟩,
         ⟨(lastRowD rows).stockId, (lastRowD rows).timestamp + 3, c⟩] := by
  simp only [append_predicted, lastRowD, List.getLastD_concat, List.append_assoc,
    List.cons_append, List.nil_append, List.append_nil]
  norm_num [add_assoc]

lemma length_sortDesc (l : List ℚ) : (sortDesc l).length = l.length :=
  (List.perm_insertionSort _ l).length_eq

lemma mem_sortDesc {x : ℚ} {l : List ℚ} : x ∈ sortDesc l ↔ x ∈ l :=
  (List.perm_insertionSort _ l).mem_iff

lemma sorted_sortDesc (l : List ℚ) :
    List.Sorted (fun a b : ℚ => b ≤ a) (sortDesc l) :=
  List.sorted_insertionSort _ l

lemma nodup_sortDesc {l : List ℚ} (h : l.Nodup) : (sortDesc l).Nodup :=
  ((List.perm_insertionSort _ l).nodup_iff).mpr h

lemma ne_nil_of_two_distinct {rows : List StockRow}
    (h2 : 2 ≤ ((rows.map StockRow.price).dedup).length) : rows ≠ [] := by
  intro e
  subst e
  simp [List.dedup_nil] at h2

lemma exists_get1 {rows : List StockRow}
    (h2 : 2 ≤ ((rows.map StockRow.price).dedup).length) :
    ∃ p0, (sorted_unique_prices rows).get? 1 = some p0 := by
  have hlen : 1 < (sorted_unique_prices rows).length := by
    rw [sorted_unique_prices, length_sortDesc]
    omega
  exact ⟨_, List.get?_eq_get hlen⟩

lemma mem_of_mem_sorted_unique {rows : List StockRow} {x : ℚ}
    (h : x ∈ sorted_unique_prices rows) : x ∈ rows.map StockRow.price := by
  rw [sorted_unique_prices, mem_sortDesc, List.mem_dedup] at h
  exact h

lemma predict_eq (rows : List StockRow) (hne : rows ≠ []) {p0 : ℚ}
    (hp0 : (sorted_unique_prices rows).get? 1 = some p0) :
    predict_next_values rows =
      .ok (rows ++
        [⟨(lastRowD rows).stockId, (lastRowD rows).timestamp + 1, p0⟩,
         ⟨(lastRowD rows).stockId, (lastRowD rows).timestamp + 2,
            round2 (p0 + ((lastRowD rows).price - p0) / 2)⟩,
         ⟨(lastRowD rows).stockId, (lastRowD rows).timestamp + 3,
            round2 (round2 (p0 + ((lastRowD rows).price - p0) / 2) +
              (p0 - round2 (p0 + ((lastRowD rows).price - p0) / 2)) / 4)⟩]) := by
  have hlast : rows.getLast? = some (lastRowD rows) := by
    rw [lastRowD_eq rows hne]
    exact List.getLast?_eq_getLast rows hne
  rw [predict_next_values]
  simp only [hlast, hp0]
  rw [append_predicted_eq rows]

/-- Modelled from the spec's wording: a value s is the second-largest
distinct price of a window when some maximal price M exists and s is the
largest price strictly below M; duplicates cannot affect this notion. -/
def IsSecondLargestDistinct (xs : List ℚ) (s : ℚ) : Prop :=
  ∃ M, M ∈ xs ∧ (∀ x ∈ xs, x ≤ M) ∧ s ∈ xs ∧ s < M ∧
    ∀ x ∈ xs, x < M → x ≤ s

lemma sorted_unique_get1_second {rows : List StockRow} {p0 : ℚ}
    (hp0 : (sorted_unique_prices rows).get? 1 = some p0) :
    IsSecondLargestDistinct (rows.map StockRow.price) p0 := by
  have hnodup : (sorted_unique_prices rows).Nodup :=
    nodup_sortDesc (List.nodup_dedup _)
  have hsort : List.Sorted (fun a b : ℚ => b ≤ a) (sorted_unique_prices rows) :=
    sorted_sortDesc _
  have hmemiff : ∀ x : ℚ, x ∈ sorted_unique_prices rows ↔
      x ∈ rows.map StockRow.price := by
    intro x
    rw [sorted_unique_prices, mem_sortDesc, List.mem_dedup]
  rcases hsl : sorted_unique_prices rows with _ | ⟨a, _ | ⟨b, t⟩⟩
  · rw [hsl] at hp0
    simp at hp0
  · rw [hsl] at hp0
    simp at hp0
  · rw [hsl] at hp0 hnodup hsort hmemiff
    simp only [List.get?_cons_succ, List.get?_cons_zero, Option.some.injEq] at hp0
    subst hp0
    have hrel : ∀ x ∈ b :: t, x ≤ a := (List.sorted_cons.mp hsort).1
    have hsort2 : List.Sorted (fun a b : ℚ => b ≤ a) (b :: t) :=
      (List.sorted_cons.mp hsort).2
    have hrel2 : ∀ x ∈ t, x ≤ b := (List.sorted_cons.mp hsort2).1
    have hanotmem : a ∉ b :: t := (List.nodup_cons.mp hnodup).1
    refine ⟨a, (hmemiff a).mp (List.mem_cons_self a _), ?_,
      (hmemiff b).mp (List.mem_cons_of_mem a (List.mem_cons_self b t)), ?_, ?_⟩
    · intro x hx
      rcases List.mem_cons.mp ((hmemiff x).mpr hx) with h | h
      · exact le_of_eq h
      · exact hrel x h
    · refine lt_of_le_of_ne (hrel b (List.mem_cons_self b t)) ?_
      intro e
      exact hanotmem (e ▸ List.mem_cons_self b t)
    · intro x hx hlt
      rcases List.mem_cons.mp ((hmemiff x).mpr hx) with h | h
      · exact absurd (h ▸ hlt) (lt_irrefl a)
      · rcases List.mem_cons.mp h with h | h
        · exact le_of_eq h
        · exact hrel2 x h

/-- C2: for every window with at least 2 distinct price values, the first
forecasted price produced by predict_next_values (the row appended at
index window-length) equals the second-largest distinct price of the
window; duplicated prices collapse before ranking and do not shift the
rank. -/
theorem spp_c2_second_largest_distinct (rows : List StockRow)
    (h2 : 2 ≤ ((rows.map StockRow.price).dedup).length) :
    ∃ out, predict_next_values rows = .ok out ∧
      ∃ r, out.get? rows.length = some r ∧
        IsSecondLargestDistinct (rows.map StockRow.price) r.price := by
  have hne := ne_nil_of_two_distinct h2
  obtain ⟨p0, hp0⟩ := exists_get1 h2
  refine ⟨_, predict_eq rows hne hp0, ?_⟩
  rw [List.get?_append_right (le_refl rows.length)]
  simp only [Nat.sub_self, List.get?_cons_zero]
  exact ⟨_, rfl, sorted_unique_get1_second hp0⟩

/-- Witness for C2 at a concrete 3-row window with prices 3, 1, 2. -/
theorem spp_c2_witness :
    2 ≤ ((([⟨['A'], 0, 3⟩, ⟨['A'], 1, 1⟩, ⟨['A'], 2, 2⟩] :
        List StockRow).map StockRow.price).dedup).length ∧
      (∃ out, predict_next_values
          [⟨['A'], 0, 3⟩, ⟨['A'], 1, 1⟩, ⟨['A'], 2, 2⟩] = .ok out ∧
        ∃ r, out.get? ([⟨['A'], 0, 3⟩, ⟨['A'], 1, 1⟩,
            ⟨['A'], 2, 2⟩] : List StockRow).length = some r ∧
          IsSecondLargestDistinct
            (([⟨['A'], 0, 3⟩, ⟨['A'], 1, 1⟩, ⟨['A'], 2, 2⟩] :
              List StockRow).map StockRow.price) r.price) :=
  ⟨by norm_num [List.dedup_cons_of_mem, List.dedup_cons_of_not_mem],
   spp_c2_second_largest_distinct _
     (by norm_num [List.dedup_cons_of_mem, List.dedup_cons_of_not_mem])⟩

/-- C3: on the specific window with prices 10.0, 10.0, 12.0, 9.0, 9.5,
11.0, 10.5, 9.8, 10.2, 9.9 (last price 9.9), predict_next_values appends
exactly three rows with prices 11.0, 10.45 and 10.59 on the three
consecutive days immediately following the last sampled day. -/
theorem spp_c3_scenario :
    predict_next_values
      [⟨['A'], 0, 10.0⟩, ⟨['A'], 1, 10.0⟩, ⟨['A'], 2, 12.0⟩, ⟨['A'], 3, 9.0⟩,
       ⟨['A'], 4, 9.5⟩, ⟨['A'], 5, 11.0⟩, ⟨['A'], 6, 10.5⟩, ⟨['A'], 7, 9.8⟩,
       ⟨['A'], 8, 10.2⟩, ⟨['A'], 9, 9.9⟩] =
    .ok
      [⟨['A'], 0, 10.0⟩, ⟨['A'], 1, 10.0⟩, ⟨['A'], 2, 12.0⟩, ⟨['A'], 3, 9.0⟩,
       ⟨['A'], 4, 9.5⟩, ⟨['A'], 5, 11.0⟩, ⟨['A'], 6, 10.5⟩, ⟨['A'], 7, 9.8⟩,
       ⟨['A'], 8, 10.2⟩, ⟨['A'], 9, 9.9⟩,
       ⟨['A'], 10, 11.0⟩, ⟨['A'], 11, 10.45⟩, ⟨['A'], 12, 10.59⟩] := by
  norm_num [predict_next_values, sorted_unique_prices, sortDesc,
    List.dedup_cons_of_mem, List.dedup_cons_of_not_mem,
    List.insertionSort, List.orderedInsert,
    append_predicted, round2, roundHalfEven]

/-- C4: for every non-empty window with at least 2 distinct prices, the
forecast result keeps the original rows unchanged and in order as a
prefix, has exactly window-size + 3 rows, and the 3 appended rows carry
the last sampled row's stock id and timestamps increasing by exactly one
day each, starting one day after the last sampled row. -/
theorem spp_c4_forecast_shape (rows : List StockRow) (hne : rows ≠ [])
    (h2 : 2 ≤ ((rows.map StockRow.price).dedup).length) :
    ∃ p0 p1 p2, ∃ out,
      predict_next_values rows = .ok out ∧
      out = rows ++
        [⟨(lastRowD rows).stockId, (lastRowD rows).timestamp + 1, p0⟩,
         ⟨(lastRowD rows).stockId, (lastRowD rows).timestamp + 2, p1⟩,
         ⟨(lastRowD rows).stockId, (lastRowD rows).timestamp + 3, p2⟩] ∧
      out.length = rows.length + 3 := by
  obtain ⟨p0, hp0⟩ := exists_get1 h2
  refine ⟨p0, _, _, _, predict_eq rows hne hp0, rfl, ?_⟩
  simp [List.length_append]

/-- Witness for C4 at a concrete 2-row window with prices 1 and 2. -/
theorem spp_c4_witness :
    ([⟨['A'], 0, 1⟩, ⟨['B'], 1, 2⟩] : List StockRow) ≠ [] ∧
      2 ≤ ((([⟨['A'], 0, 1⟩, ⟨['B'], 1, 2⟩] :
          List StockRow).map StockRow.price).dedup).length ∧
      (∃ p0 p1 p2, ∃ out,
        predict_next_values [⟨['A'], 0, 1⟩, ⟨['B'], 1, 2⟩] = .ok out ∧
        out = [⟨['A'], 0, 1⟩, ⟨['B'], 1, 2⟩] ++
          [⟨(lastRowD [⟨['A'], 0, 1⟩, ⟨['B'], 1, 2⟩]).stockId,
              (lastRowD [⟨['A'], 0, 1⟩, ⟨['B'], 1, 2⟩]).timestamp + 1, p0⟩,
           ⟨(lastRowD [⟨['A'], 0, 1⟩, ⟨['B'], 1, 2⟩]).stockId,
              (lastRowD [⟨['A'], 0, 1⟩, ⟨['B'], 1, 2⟩]).timestamp + 2, p1⟩,
           ⟨(lastRowD [⟨['A'], 0, 1⟩, ⟨['B'], 1, 2⟩]).stockId,
              (lastRowD [⟨['A'], 0, 1⟩, ⟨['B'], 1, 2⟩]).timestamp + 3, p2⟩] ∧
        out.length =
          ([⟨['A'], 0, 1⟩, ⟨['B'], 1, 2⟩] : List StockRow).length + 3) :=
  ⟨List.cons_ne_nil _ _,
   by norm_num [List.dedup_cons_of_mem, List.dedup_cons_of_not_mem],
   spp_c4_forecast_shape _ (List.cons_ne_nil _ _)
     (by norm_num [List.dedup_cons_of_mem, List.dedup_cons_of_not_mem])⟩

/-- C7: on every 10-row window holding a single distinct price value,
predict_next_values raises IndexError (the rank-1 lookup into the
single-element sorted unique price list), yielding an error and never a
result, so no substitute forecast is produced. -/
theorem spp_c7_single_distinct_price (rows : List StockRow)
    (hlen : rows.length = 10)
    (h1 : ((rows.map StockRow.price).dedup).length = 1) :
    predict_next_values rows = .error .indexError ∧
      ∀ out, predict_next_values rows ≠ .ok out := by
  have hne : rows ≠ [] := by
    intro e
    rw [e] at hlen
    simp at hlen
  have hlast : rows.getLast? = some (lastRowD rows) := by
    rw [lastRowD_eq rows hne]
    exact List.getLast?_eq_getLast rows hne
  have hnone : (sorted_unique_prices rows).get? 1 = none := by
    apply List.get?_eq_none.mpr
    rw [sorted_unique_prices, length_sortDesc, h1]
  have hmain : predict_next_values rows = .error .indexError := by
    rw [predict_next_values]
    simp only [hlast, hnone]
  refine ⟨hmain, ?_⟩
  intro out h
  rw [hmain] at h
  exact Except.noConfusion h

/-- Witness for C7 at a concrete 10-row window whose rows all carry the
price 5. -/
theorem spp_c7_witness :
    ([⟨['A'], 0, 5⟩, ⟨['A'], 1, 5⟩, ⟨['A'], 2, 5⟩, ⟨['A'], 3, 5⟩,
      ⟨['A'], 4, 5⟩, ⟨['A'], 5, 5⟩, ⟨['A'], 6, 5⟩, ⟨['A'], 7, 5⟩,
      ⟨['A'], 8, 5⟩, ⟨['A'], 9, 5⟩] : List StockRow).length = 10 ∧
    ((([⟨['A'], 0, 5⟩, ⟨['A'], 1, 5⟩, ⟨['A'], 2, 5⟩, ⟨['A'], 3, 5⟩,
       ⟨['A'], 4, 5⟩, ⟨['A'], 5, 5⟩, ⟨['A'], 6, 5⟩, ⟨['A'], 7, 5⟩,
       ⟨['A'], 8, 5⟩, ⟨['A'], 9, 5⟩] :
        List StockRow).map StockRow.price).dedup).length = 1 ∧
    (predict_next_values
        [⟨['A'], 0, 5⟩, ⟨['A'], 1, 5⟩, ⟨['A'], 2, 5⟩, ⟨['A'], 3, 5⟩,
         ⟨['A'], 4, 5⟩, ⟨['A'], 5, 5⟩, ⟨['A'], 6, 5⟩, ⟨['A'], 7, 5⟩,
         ⟨['A'], 8, 5⟩, ⟨['A'], 9, 5⟩] = .error .indexError ∧
      ∀ out, predict_next_values
        [⟨['A'], 0, 5⟩, ⟨['A'], 1, 5⟩, ⟨['A'], 2, 5⟩, ⟨['A'], 3, 5⟩,
         ⟨['A'], 4, 5⟩, ⟨['A'], 5, 5⟩, ⟨['A'], 6, 5⟩, ⟨['A'], 7, 5⟩,
         ⟨['A'], 8, 5⟩, ⟨['A'], 9, 5⟩] ≠ .ok out) :=
  ⟨rfl,
   by norm_num [List.dedup_cons_of_mem, List.dedup_cons_of_not_mem],
   spp_c7_single_distinct_price _ rfl
     (by norm_num [List.dedup_cons_of_mem, List.dedup_cons_of_not_mem])⟩

lemma le_roundHalfEven {k : ℤ} {q : ℚ} (h : (k : ℚ) ≤ q) :
    k ≤ roundHalfEven q := by
  have hk : k ≤ ⌊q⌋ := Int.le_floor.mpr h
  rw [roundHalfEven]
  split_ifs <;> omega

lemma roundHalfEven_le {k : ℤ} {q : ℚ} (h : q ≤ (k : ℚ)) :
    roundHalfEven q ≤ k := by
  have hk : ⌊q⌋ ≤ k := by
    have h1 : (⌊q⌋ : ℚ) ≤ (k : ℚ) := (Int.floor_le q).trans h
    exact_mod_cast h1
  have hstrict : ¬ q - ⌊q⌋ < 1/2 → ⌊q⌋ + 1 ≤ k := by
    intro hge
    have h2 : (⌊q⌋ : ℚ) < q := by
      push_neg at hge
      linarith
    have h3 : ⌊q⌋ < k := by
      have h4 : (⌊q⌋ : ℚ) < (k : ℚ) := h2.trans_le h
      exact_mod_cast h4
    omega
  rw [roundHalfEven]
  split_ifs with h1 h2 h3
  · exact hk
  · exact hstrict h1
  · exact hk
  · exact hstrict h1

/-- A rational that is a whole number of hundredths. -/
def Centic (x : ℚ) : Prop := ∃ j : ℤ, x = (j : ℚ) / 100

lemma centic_round2 (x : ℚ) : Centic (round2 x) :=
  ⟨roundHalfEven (100 * x), rfl⟩

lemma centic_min {a b : ℚ} (ha : Centic a) (hb : Centic b) :
    Centic (min a b) := by
  rcases le_total a b with h | h
  · rw [min_eq_left h]; exact ha
  · rw [min_eq_right h]; exact hb

lemma centic_max {a b : ℚ} (ha : Centic a) (hb : Centic b) :
    Centic (max a b) := by
  rcases le_total a b with h | h
  · rw [max_eq_right h]; exact hb
  · rw [max_eq_left h]; exact ha

lemma round2_between {a b x : ℚ} (ha : Centic a) (hb : Centic b)
    (hax : a ≤ x) (hxb : x ≤ b) : a ≤ round2 x ∧ round2 x ≤ b := by
  obtain ⟨j, rfl⟩ := ha
  obtain ⟨k, rfl⟩ := hb
  constructor
  · have hj : (j : ℚ) ≤ 100 * x := by linarith
    have h1 : j ≤ roundHalfEven (100 * x) := le_roundHalfEven hj
    have h2 : (j : ℚ) ≤ (roundHalfEven (100 * x) : ℚ) := by exact_mod_cast h1
    rw [round2]
    linarith
  · have hk : 100 * x ≤ (k : ℚ) := by linarith
    have h1 : roundHalfEven (100 * x) ≤ k := roundHalfEven_le hk
    have h2 : (roundHalfEven (100 * x) : ℚ) ≤ (k : ℚ) := by exact_mod_cast h1
    rw [round2]
    linarith

/-- C6 counterexample: the window with eight rows at 10.02 followed by
10.01 and 10.00 has second-largest distinct price 10.01 and last price
10.00, yet the first interpolated value rounds to 10.00 — equal to the
last price, hence not strictly between 10.00 and 10.01. -/
theorem spp_c6_counterexample :
    predict_next_values
        [⟨['A'], 0, 10.02⟩, ⟨['A'], 1, 10.02⟩, ⟨['A'], 2, 10.02⟩,
         ⟨['A'], 3, 10.02⟩, ⟨['A'], 4, 10.02⟩, ⟨['A'], 5, 10.02⟩,
         ⟨['A'], 6, 10.02⟩, ⟨['A'], 7, 10.02⟩, ⟨['A'], 8, 10.01⟩,
         ⟨['A'], 9, 10.0⟩] =
      .ok
        [⟨['A'], 0, 10.02⟩, ⟨['A'], 1, 10.02⟩, ⟨['A'], 2, 10.02⟩,
         ⟨['A'], 3, 10.02⟩, ⟨['A'], 4, 10.02⟩, ⟨['A'], 5, 10.02⟩,
         ⟨['A'], 6, 10.02⟩, ⟨['A'], 7, 10.02⟩, ⟨['A'], 8, 10.01⟩,
         ⟨['A'], 9, 10.0⟩,
         ⟨['A'], 10, 10.01⟩, ⟨['A'], 11, 10.0⟩, ⟨['A'], 12, 10.0⟩] ∧
      (10.01 : ℚ) ≠ 10.0 ∧
      ¬ (min (10.01 : ℚ) 10.0 < 10.0 ∧ (10.0 : ℚ) < max 10.01 10.0) := by
  refine ⟨?_, by norm_num, by norm_num⟩
  norm_num [predict_next_values, sorted_unique_prices, sortDesc,
    List.dedup_cons_of_mem, List.dedup_cons_of_not_mem,
    List.insertionSort, List.orderedInsert,
    append_predicted, round2, roundHalfEven]

/-- C6 amended: when every window price is a whole number of hundredths
(2-decimal price data), the first interpolated value p1 lies between p0
and the last price n inclusive (rounding can make it hit an endpoint, as
the counterexample shows), and p2 lies between p1 and p0 inclusive; both
are rounded to 2 decimal places. -/
theorem spp_c6_amended (rows : List StockRow)
    (hcent : ∀ r ∈ rows, Centic r.price)
    (h2 : 2 ≤ ((rows.map StockRow.price).dedup).length) :
    ∃ p0 p1 p2,
      predict_next_values rows = .ok (rows ++
        [⟨(lastRowD rows).stockId, (lastRowD rows).timestamp + 1, p0⟩,
         ⟨(lastRowD rows).stockId, (lastRowD rows).timestamp + 2, p1⟩,
         ⟨(lastRowD rows).stockId, (lastRowD rows).timestamp + 3, p2⟩]) ∧
      p1 = round2 (p0 + ((lastRowD rows).price - p0) / 2) ∧
      p2 = round2 (p1 + (p0 - p1) / 4) ∧
      min p0 (lastRowD rows).price ≤ p1 ∧
      p1 ≤ max p0 (lastRowD rows).price ∧
      min p1 p0 ≤ p2 ∧ p2 ≤ max p1 p0 := by
  have hne := ne_nil_of_two_distinct h2
  obtain ⟨p0, hp0⟩ := exists_get1 h2
  have hp0cent : Centic p0 := by
    have hmem : p0 ∈ rows.map StockRow.price :=
      mem_of_mem_sorted_unique (List.get?_mem hp0)
    obtain ⟨r, hr, hrp⟩ := List.mem_map.mp hmem
    exact hrp ▸ hcent r hr
  have hncent : Centic (lastRowD rows).price :=
    hcent _ (lastRowD_mem rows hne)
  set n := (lastRowD rows).price with hn
  have hmid : min p0 n ≤ p0 + (n - p0) / 2 ∧ p0 + (n - p0) / 2 ≤ max p0 n := by
    rcases le_total p0 n with h | h
    · rw [min_eq_left h, max_eq_right h]
      constructor <;> linarith
    · rw [min_eq_right h, max_eq_left h]
      constructor <;> linarith
  have hp1b := round2_between (centic_min hp0cent hncent)
    (centic_max hp0cent hncent) hmid.1 hmid.2
  set p1 := round2 (p0 + (n - p0) / 2) with hp1
  have hp1cent : Centic p1 := centic_round2 _
  have hq2 : min p1 p0 ≤ p1 + (p0 - p1) / 4 ∧ p1 + (p0 - p1) / 4 ≤ max p1 p0 := by
    rcases le_total p1 p0 with h | h
    · rw [min_eq_left h, max_eq_right h]
      constructor <;> linarith
    · rw [min_eq_right h, max_eq_left h]
      constructor <;> linarith
  have hp2b := round2_between (centic_min hp1cent hp0cent)
    (centic_max hp1cent hp0cent) hq2.1 hq2.2
  exact ⟨p0, p1, round2 (p1 + (p0 - p1) / 4),
    predict_eq rows hne hp0, rfl, rfl, hp1b.1, hp1b.2, hp2b.1, hp2b.2⟩

/-- Witness for the amended C6 at a concrete 2-row window with prices
10 and 11. -/
theorem spp_c6_witness :
    (∀ r ∈ ([⟨['A'], 0, 10⟩, ⟨['A'], 1, 11⟩] : List StockRow),
      Centic r.price) ∧
    2 ≤ ((([⟨['A'], 0, 10⟩, ⟨['A'], 1, 11⟩] :
        List StockRow).map StockRow.price).dedup).length ∧
    (∃ p0 p1 p2,
      predict_next_values [⟨['A'], 0, 10⟩, ⟨['A'], 1, 11⟩] =
        .ok ([⟨['A'], 0, 10⟩, ⟨['A'], 1, 11⟩] ++
          [⟨(lastRowD [⟨['A'], 0, 10⟩, ⟨['A'], 1, 11⟩]).stockId,
              (lastRowD [⟨['A'], 0, 10⟩, ⟨['A'], 1, 11⟩]).timestamp + 1, p0⟩,
           ⟨(lastRowD [⟨['A'], 0, 10⟩, ⟨['A'], 1, 11⟩]).stockId,
              (lastRowD [⟨['A'], 0, 10⟩, ⟨['A'], 1, 11⟩]).timestamp + 2, p1⟩,
           ⟨(lastRowD [⟨['A'], 0, 10⟩, ⟨['A'], 1, 11⟩]).stockId,
              (lastRowD [⟨['A'], 0, 10⟩, ⟨['A'], 1, 11⟩]).timestamp + 3, p2⟩]) ∧
      p1 = round2 (p0 +
        ((lastRowD [⟨['A'], 0, 10⟩, ⟨['A'], 1, 11⟩]).price - p0) / 2) ∧
      p2 = round2 (p1 + (p0 - p1) / 4) ∧
      min p0 (lastRowD [⟨['A'], 0, 10⟩, ⟨['A'], 1, 11⟩]).price ≤ p1 ∧
      p1 ≤ max p0 (lastRowD [⟨['A'], 0, 10⟩, ⟨['A'], 1, 11⟩]).price ∧
      min p1 p0 ≤ p2 ∧ p2 ≤ max p1 p0) := by
  have hcent : ∀ r ∈ ([⟨['A'], 0, 10⟩, ⟨['A'], 1, 11⟩] : List StockRow),
      Centic r.price := by
    intro r hr
    rcases List.mem_cons.mp hr with rfl | hr
    · exact ⟨1000, by norm_num⟩
    · rcases List.mem_cons.mp hr with rfl | hr
      · exact ⟨1100, by norm_num⟩
      · cases hr
  have h2 : 2 ≤ ((([⟨['A'], 0, 10⟩, ⟨['A'], 1, 11⟩] :
      List StockRow).map StockRow.price).dedup).length := by
    norm_num [List.dedup_cons_of_mem, List.dedup_cons_of_not_mem]
  exact ⟨hcent, h2, spp_c6_amended _ hcent h2⟩

/-! ## Raw CSV line parsing (RowSampler)

A raw text line is modelled as its character list. Parsing embeds the
splitting on commas, datetime.strptime with format %d-%m-%Y, and float()
on plain fixed-point decimal literals (the only shape this data uses). -/

/-- Test for an ASCII decimal digit character. -/
def isDigitCh (c : Char) : Bool := 48 ≤ c.toNat && c.toNat ≤ 57

/-- Numeric value of an ASCII digit character. -/
def charToDigit (c : Char) : ℕ := c.toNat - 48

/-- ASCII digit character of a value below 10. -/
def digitChar (d : ℕ) : Char := Char.ofNat (48 + d)

lemma cd0 : charToDigit '0' = 0 := by decide

lemma cd1 : charToDigit '1' = 1 := by decide

lemma cd2 : charToDigit '2' = 2 := by decide

lemma cd3 : charToDigit '3' = 3 := by decide

lemma cd4 : charToDigit '4' = 4 := by decide

lemma cd5 : charToDigit '5' = 5 := by decide

lemma cd6 : charToDigit '6' = 6 := by decide

lemma cd7 : charToDigit '7' = 7 := by decide

lemma cd8 : charToDigit '8' = 8 := by decide

lemma cd9 : charToDigit '9' = 9 := by decide

/-- Accumulating base-10 reading of a digit string; any non-digit
character fails the whole read. -/
def parseDigitsAux : List Char → ℕ → Option ℕ
  | [], acc => some acc
  | c :: cs, acc =>
    if isDigitCh c then parseDigitsAux cs (10 * acc + charToDigit c)
    else none

/-- Reading of a non-empty all-digit string as a natural number. -/
def parseDigits (cs : List Char) : Option ℕ :=
  match cs with
  | [] => none
  | _ => parseDigitsAux cs 0

/-- Splitting a character list on a separator, like str.split: n
separators yield n+1 (possibly empty) groups. -/
def splitOnCh (sep : Char) : List Char → List (List Char)
  | [] => [[]]
  | c :: cs =>
    match splitOnCh sep cs with
    | [] => [[c]]
    | g :: gs => if c = sep then [] :: g :: gs else (c :: g) :: gs

/-- Test for the whitespace characters removed by str.strip. -/
def isSpaceCh (c : Char) : Bool :=
  c = ' ' || c = '\t' || c = '\n' || c = '\r'

/-- Embedding of str.strip: drop leading and trailing whitespace. -/
def trimChars (cs : List Char) : List Char :=
  ((cs.dropWhile isSpaceCh).reverse.dropWhile isSpaceCh).reverse

/-- Gregorian leap-year test. -/
def isLeapYear (y : ℕ) : Bool :=
  y % 4 == 0 && (y % 100 != 0 || y % 400 == 0)

/-- Number of days in a month of a given year. -/
def daysInMonth (m y : ℕ) : ℕ :=
  if m = 2 then (if isLeapYear y then 29 else 28)
  else if m = 4 ∨ m = 6 ∨ m = 9 ∨ m = 11 then 30 else 31

/-- Day number of a civil date (days since 1970-01-01, Hinnant's
algorithm). For the representable datetime.date range (year 1 to 9999)
every division below has a non-negative dividend, where Lean's integer
division agrees with the reference formulation. -/
def daysFromCivil (y m d : ℤ) : ℤ :=
  let y2 := y - (if m ≤ 2 then 1 else 0)
  let era := (if 0 ≤ y2 then y2 else y2 - 399) / 400
  let yoe := y2 - era * 400
  let doy := (153 * (m + (if 2 < m then -3 else 9)) + 2) / 5 + d - 1
  let doe := yoe * 365 + yoe / 4 - yoe / 100 + doy
  era * 146097 + doe - 719468

/-- Civil date (year, month, day) of a day number, inverse of
daysFromCivil on the representable range. -/
def civilFromDays (z : ℤ) : ℤ × ℤ × ℤ :=
  let z2 := z + 719468
  let era := (if 0 ≤ z2 then z2 else z2 - 146096) / 146097
  let doe := z2 - era * 146097
  let yoe := (doe - doe / 1460 + doe / 36524 - doe / 146096) / 365
  let y := yoe + era * 400
  let doy := doe - (365 * yoe + yoe / 4 - yoe / 100)
  let mp := (5 * doy + 2) / 153
  let d := doy - (153 * mp + 2) / 5 + 1
  let m := mp + (if mp < 10 then 3 else -9)
  (y + (if m ≤ 2 then 1 else 0), m, d)

/-- Embedding of datetime.strptime(s, reading day-month-year separated
by dashes).date(): three dash-separated digit groups forming a valid
calendar date; anything else raises ValueError, modelled as none. -/
def parseDateChars (cs : List Char) : Option ℤ :=
  match splitOnCh '-' cs with
  | [ds, ms, ys] =>
    match parseDigits ds, parseDigits ms, parseDigits ys with
    | some d, some m, some y =>
      if 1 ≤ d ∧ d ≤ daysInMonth m y ∧ 1 ≤ m ∧ m ≤ 12 ∧ 1 ≤ y ∧ y ≤ 9999 then
        some (daysFromCivil y m d)
      else none
    | _, _, _ => none
  | _ => none

/-- Embedding of float() on an unsigned plain decimal literal: digits
with at most one decimal point. -/
def parseUnsignedChars (cs : List Char) : Option ℚ :=
  match splitOnCh '.' cs with
  | [ip] =>
    match parseDigits ip with
    | some n => some ((n : ℚ))
    | none => none
  | [ip, fp] =>
    match parseDigits ip, parseDigits fp with
    | some n, some f => some ((n : ℚ) + (f : ℚ) / (10 : ℚ) ^ fp.length)
    | _, _ => none
  | _ => none

/-- Embedding of float() on a plain decimal literal, with an optional
leading minus sign. -/
def parseFloatChars (cs : List Char) : Option ℚ :=
  if cs.head? = some '-' then
    match parseUnsignedChars cs.tail with
    | some q => some (-q)
    | none => none
  else parseUnsignedChars cs

/-- Embedding of the per-line parsing in get_random_rows (source lines
70-75): strip the line, split on commas, keep field 0 verbatim, parse
field 1 as a date and field 2 as a float. Fewer than 3 fields raises
IndexError; a bad date or number raises ValueError. -/
def parseRowLine (line : List Char) : Except PyErr StockRow :=
  match splitOnCh ',' (trimChars line) with
  | sid :: ts :: pr :: _ =>
    match parseDateChars ts, parseFloatChars pr with
    | some d, some q => .ok ⟨sid, d, q⟩
    | _, _ => .error .valueError
  | _ => .error .indexError

/-- Embedding of generate_random_start_row (source lines 19-38). The
wall-clock seeding is abstracted into the injectable randint oracle, as
the spec directs for the random source; randint a b models
random.randint, documented to return a value between a and b inclusive. -/
def generate_random_start_row (randint : ℕ → ℕ → ℕ)
    (total_row_count : ℕ) : ℕ :=
  if total_row_count < 10 then 0
  else randint 0 (total_row_count - 10)

/-- Embedding of the row-collection loop of get_random_rows (source
lines 65-76): walk the lines with a current-row counter, stop at
start + 10, and parse and collect the lines at index at least start. A
parse failure raises out of the loop. -/
def sample_loop (start : ℕ) :
    List (List Char) → ℕ → Except PyErr (List StockRow)
  | [], _ => .ok []
  | line :: rest, current =>
    if start + 10 ≤ current then .ok []
    else if start ≤ current then do
      let r ← parseRowLine line
      let rs ← sample_loop start rest (current + 1)
      .ok (r :: rs)
    else sample_loop start rest (current + 1)

/-- Sequencing of a fallible parse over a list, failing on the first
error; the specification-side description of a fully parsed slice. -/
def mapExcept {α β : Type} (f : α → Except PyErr β) :
    List α → Except PyErr (List β)
  | [] => .ok []
  | a :: as =>
    match f a with
    | .error e => .error e
    | .ok b =>
      match mapExcept f as with
      | .error e => .error e
      | .ok bs => .ok (b :: bs)

/-- Embedding of get_random_rows (source lines 41-85): count the rows,
draw a start row, collect the 10-row window; the surrounding try/except
turns any raised error into an absent result. -/
def get_random_rows (lines : List (List Char))
    (randint : ℕ → ℕ → ℕ) : Option (List StockRow) :=
  let total_row_count := lines.length
  let start_row := generate_random_start_row randint total_row_count
  match sample_loop start_row lines 0 with
  | .ok rows => some rows
  | .error _ => none

lemma sample_loop_eq (start : ℕ) (lst : List (List Char)) :
    ∀ cur : ℕ, sample_loop start lst cur =
      mapExcept parseRowLine
        ((lst.drop (start - cur)).take (start + 10 - max start cur)) := by
  induction lst with
  | nil =>
    intro cur
    simp [sample_loop, mapExcept]
  | cons l ls ih =>
    intro cur
    rw [sample_loop]
    by_cases h1 : start + 10 ≤ cur
    · rw [if_pos h1]
      have e : start + 10 - max start cur = 0 := by omega
      rw [e]
      simp [mapExcept]
    · rw [if_neg h1]
      by_cases h2 : start ≤ cur
      · rw [if_pos h2]
        have e2 : max start cur = cur := max_eq_right h2
        have e4 : max start (cur + 1) = cur + 1 := max_eq_right (by omega)
        have e5 : start - cur = 0 := by omega
        have e6 : start - (cur + 1) = 0 := by omega
        have e7 : start + 10 - cur = (start + 10 - (cur + 1)) + 1 := by omega
        rw [ih (cur + 1), e2, e4, e5, e6, e7, List.drop_zero, List.drop_zero,
          List.take_succ_cons]
        conv_rhs => rw [mapExcept]
        cases parseRowLine l with
        | error e => rfl
        | ok r =>
          cases mapExcept parseRowLine
              (List.take (start + 10 - (cur + 1)) ls) with
          | error e => rfl
          | ok rs => rfl
      · rw [if_neg h2]
        have e2 : max start cur = start := max_eq_left (by omega)
        have e4 : max start (cur + 1) = start := max_eq_left (by omega)
        have e5 : start - cur = (start - (cur + 1)) + 1 := by omega
        rw [ih (cur + 1), e2, e4, e5, List.drop_succ_cons]

lemma mapExcept_ok_length {α β : Type} (f : α → Except PyErr β) :
    ∀ (l : List α) (res : List β), mapExcept f l = .ok res →
      res.length = l.length := by
  intro l
  induction l with
  | nil =>
    intro res h
    rw [mapExcept] at h
    cases h
    rfl
  | cons a as ih =>
    intro res h
    rw [mapExcept] at h
    cases hfa : f a with
    | error e =>
      rw [hfa] at h
      cases h
    | ok b =>
      rw [hfa] at h
      cases hrest : mapExcept f as with
      | error e =>
        rw [hrest] at h
        cases h
      | ok bs =>
        rw [hrest] at h
        cases h
        simp [ih bs hrest]

lemma get_random_rows_eq (lines : List (List Char)) (randint : ℕ → ℕ → ℕ) :
    get_random_rows lines randint =
      (mapExcept parseRowLine
        ((lines.drop
          (generate_random_start_row randint lines.length)).take 10)).toOption := by
  rw [get_random_rows]
  have e := sample_loop_eq (generate_random_start_row randint lines.length) lines 0
  rw [e]
  have e2 : max (generate_random_start_row randint lines.length) 0 =
      generate_random_start_row randint lines.length :=
    max_eq_left (Nat.zero_le _)
  rw [e2, Nat.sub_zero, Nat.add_sub_cancel_left]
  cases mapExcept parseRowLine
      ((lines.drop (generate_random_start_row randint lines.length)).take 10) with
  | error e => rfl
  | ok rows => rfl

/-- C5: the sampled window is the parse of the contiguous slice of 10
lines starting at the drawn start row; when the file has at least 10
rows the start row is at most total - 10 and a returned window has
exactly 10 rows; when the file has fewer than 10 rows the start row is 0
and a returned window covers all available rows. -/
theorem spp_c5_sampling (lines : List (List Char)) (randint : ℕ → ℕ → ℕ)
    (hrand : ∀ a b, a ≤ b → a ≤ randint a b ∧ randint a b ≤ b) :
    get_random_rows lines randint =
      (mapExcept parseRowLine
        ((lines.drop
          (generate_random_start_row randint lines.length)).take 10)).toOption ∧
    (10 ≤ lines.length →
      generate_random_start_row randint lines.length ≤ lines.length - 10 ∧
      ∀ w, get_random_rows lines randint = some w → w.length = 10) ∧
    (lines.length < 10 →
      generate_random_start_row randint lines.length = 0 ∧
      ∀ w, get_random_rows lines randint = some w →
        w.length = lines.length) := by
  have hmain := get_random_rows_eq lines randint
  refine ⟨hmain, ?_, ?_⟩
  · intro h10
    have hstart : generate_random_start_row randint lines.length ≤
        lines.length - 10 := by
      rw [generate_random_start_row, if_neg (by omega)]
      exact (hrand 0 (lines.length - 10) (Nat.zero_le _)).2
    refine ⟨hstart, ?_⟩
    intro w hw
    rw [hmain] at hw
    cases hok : mapExcept parseRowLine
        ((lines.drop (generate_random_start_row randint lines.length)).take 10) with
    | error e =>
      rw [hok] at hw
      cases hw
    | ok res =>
      rw [hok] at hw
      cases hw
      have hlen := mapExcept_ok_length parseRowLine _ _ hok
      rw [hlen, List.length_take, List.length_drop]
      omega
  · intro hlt
    have hstart : generate_random_start_row randint lines.length = 0 := by
      rw [generate_random_start_row, if_pos hlt]
    refine ⟨hstart, ?_⟩
    intro w hw
    rw [hmain, hstart] at hw
    cases hok : mapExcept parseRowLine ((lines.drop 0).take 10) with
    | error e =>
      rw [hok] at hw
      cases hw
    | ok res =>
      rw [hok] at hw
      cases hw
      have hlen := mapExcept_ok_length parseRowLine _ _ hok
      rw [hlen, List.length_take, List.length_drop]
      omega

/-- Witness for C5 at a concrete 2-line file and the left-endpoint
randint oracle. -/
theorem spp_c5_witness :
    (∀ a b : ℕ, a ≤ b → a ≤ (fun (x : ℕ) (_ : ℕ) => x) a b ∧
        (fun (x : ℕ) (_ : ℕ) => x) a b ≤ b) ∧
    (get_random_rows ["A,01-01-2020,1.5".data, "A,02-01-2020,2.5".data]
        (fun (x : ℕ) (_ : ℕ) => x) =
      (mapExcept parseRowLine
        ((["A,01-01-2020,1.5".data, "A,02-01-2020,2.5".data].drop
          (generate_random_start_row (fun (x : ℕ) (_ : ℕ) => x)
            (["A,01-01-2020,1.5".data,
              "A,02-01-2020,2.5".data] : List (List Char)).length)).take
          10)).toOption ∧
    (10 ≤ (["A,01-01-2020,1.5".data,
        "A,02-01-2020,2.5".data] : List (List Char)).length →
      generate_random_start_row (fun (x : ℕ) (_ : ℕ) => x)
          (["A,01-01-2020,1.5".data,
            "A,02-01-2020,2.5".data] : List (List Char)).length ≤
        (["A,01-01-2020,1.5".data,
          "A,02-01-2020,2.5".data] : List (List Char)).length - 10 ∧
      ∀ w, get_random_rows ["A,01-01-2020,1.5".data, "A,02-01-2020,2.5".data]
          (fun (x : ℕ) (_ : ℕ) => x) = some w → w.length = 10) ∧
    ((["A,01-01-2020,1.5".data,
        "A,02-01-2020,2.5".data] : List (List Char)).length < 10 →
      generate_random_start_row (fun (x : ℕ) (_ : ℕ) => x)
          (["A,01-01-2020,1.5".data,
            "A,02-01-2020,2.5".data] : List (List Char)).length = 0 ∧
      ∀ w, get_random_rows ["A,01-01-2020,1.5".data, "A,02-01-2020,2.5".data]
          (fun (x : ℕ) (_ : ℕ) => x) = some w →
        w.length = (["A,01-01-2020,1.5".data,
          "A,02-01-2020,2.5".data] : List (List Char)).length)) :=
  ⟨fun a _ h => ⟨le_refl a, h⟩,
   spp_c5_sampling _ _ (fun a _ h => ⟨le_refl a, h⟩)⟩

/-! ## Rendering of prices and dates (RowFormatter) -/

/-- Decimal rendering of a natural number, used by the fixed-point price
format and the year field. -/
def natToChars (n : ℕ) : List Char :=
  if n = 0 then ['0'] else ((Nat.digits 10 n).reverse).map digitChar

/-- Two-digit zero-padded rendering, as used for day, month and the
fractional part of the 2-decimal price format. -/
def pad2Chars (n : ℕ) : List Char :=
  [digitChar (n / 10 % 10), digitChar (n % 10)]

/-- Four-digit zero-padded rendering of a year. -/
def pad4Chars (n : ℕ) : List Char :=
  [digitChar (n / 1000 % 10), digitChar (n / 100 % 10),
   digitChar (n / 10 % 10), digitChar (n % 10)]

/-- Embedding of the fixed-point 2-decimal price formatting used by
format_rows (source line 134): round to hundredths half-to-even, then
print sign, integer part, a point, and a two-digit fraction. -/
def format_price_2dp (x : ℚ) : List Char :=
  (if x < 0 then ['-'] else []) ++
    natToChars ((roundHalfEven (100 * x)).natAbs / 100) ++
    '.' :: pad2Chars ((roundHalfEven (100 * x)).natAbs % 100)

/-- Embedding of strftime with the day-month-year format used by
format_rows (source line 133): zero-padded day and month, four-digit
year, separated by dashes. -/
def strftime_dmy (z : ℤ) : List Char :=
  pad2Chars (civilFromDays z).2.2.toNat ++
    '-' :: pad2Chars (civilFromDays z).2.1.toNat ++
    '-' :: pad4Chars (civilFromDays z).1.toNat

lemma digitChar_facts {d : ℕ} (h : d < 10) :
    isDigitCh (digitChar d) = true ∧ charToDigit (digitChar d) = d ∧
      digitChar d ≠ '.' ∧ digitChar d ≠ '-' := by
  interval_cases d <;> exact ⟨by decide, by decide, by decide, by decide⟩

lemma parseDigitsAux_map (L : List ℕ) :
    ∀ acc, (∀ d ∈ L, d < 10) →
      parseDigitsAux (L.map digitChar) acc =
        some (L.foldl (fun a d => 10 * a + d) acc) := by
  induction L with
  | nil => intro acc _; rfl
  | cons d L ih =>
    intro acc hL
    have hd : d < 10 := hL d (List.mem_cons_self d L)
    rw [List.map_cons, parseDigitsAux, if_pos (digitChar_facts hd).1,
      (digitChar_facts hd).2.1, List.foldl_cons]
    exact ih _ (fun x hx => hL x (List.mem_cons_of_mem d hx))

lemma parseDigits_eq_aux {cs : List Char} (h : cs ≠ []) :
    parseDigits cs = parseDigitsAux cs 0 := by
  cases cs with
  | nil => exact absurd rfl h
  | cons c cs => rfl

lemma natToChars_ne_nil (n : ℕ) : natToChars n ≠ [] := by
  rw [natToChars]
  split_ifs with h
  · simp
  · simp [List.reverse_eq_nil_iff, Nat.digits_ne_nil_iff_ne_zero, h]

lemma mem_natToChars {c : Char} {n : ℕ} (h : c ∈ natToChars n) :
    ∃ d, d < 10 ∧ c = digitChar d := by
  rw [natToChars] at h
  split_ifs at h with h0
  · refine ⟨0, by norm_num, ?_⟩
    simp only [List.mem_singleton] at h
    rw [h]
    rfl
  · obtain ⟨d, hd, rfl⟩ := List.mem_map.mp h
    exact ⟨d, Nat.digits_lt_base (by norm_num) (List.mem_reverse.mp hd), rfl⟩

lemma mem_pad2Chars {c : Char} {n : ℕ} (h : c ∈ pad2Chars n) :
    ∃ d, d < 10 ∧ c = digitChar d := by
  rw [pad2Chars] at h
  rcases List.mem_cons.mp h with rfl | h
  · exact ⟨n / 10 % 10, Nat.mod_lt _ (by norm_num), rfl⟩
  · rcases List.mem_cons.mp h with rfl | h
    · exact ⟨n % 10, Nat.mod_lt _ (by norm_num), rfl⟩
    · cases h

lemma foldr_eq_ofDigits (L : List ℕ) :
    L.foldr (fun x y => 10 * y + x) 0 = Nat.ofDigits 10 L := by
  induction L with
  | nil => simp [Nat.ofDigits_nil]
  | cons d L ih =>
    rw [List.foldr_cons, ih, Nat.ofDigits_cons]
    omega

lemma parseDigits_natToChars (n : ℕ) : parseDigits (natToChars n) = some n := by
  rw [natToChars]
  split_ifs with h
  · rw [h]
    decide
  · have hdig : ∀ d ∈ (Nat.digits 10 n).reverse, d < 10 := fun d hd =>
      Nat.digits_lt_base (by norm_num) (List.mem_reverse.mp hd)
    have hne : ((Nat.digits 10 n).reverse).map digitChar ≠ [] := by
      simp [List.reverse_eq_nil_iff, Nat.digits_ne_nil_iff_ne_zero, h]
    rw [parseDigits_eq_aux hne, parseDigitsAux_map _ 0 hdig,
      List.foldl_reverse, foldr_eq_ofDigits, Nat.ofDigits_digits]

lemma parseDigits_pad2Chars {n : ℕ} (h : n < 100) :
    parseDigits (pad2Chars n) = some n := by
  have h1 : n / 10 % 10 < 10 := Nat.mod_lt _ (by norm_num)
  have h2 : n % 10 < 10 := Nat.mod_lt _ (by norm_num)
  rw [pad2Chars, parseDigits_eq_aux (by simp), parseDigitsAux,
    if_pos (digitChar_facts h1).1, (digitChar_facts h1).2.1, parseDigitsAux,
    if_pos (digitChar_facts h2).1, (digitChar_facts h2).2.1, parseDigitsAux]
  congr 1
  omega

lemma splitOnCh_ne_nil (sep : Char) (l : List Char) : splitOnCh sep l ≠ [] := by
  induction l with
  | nil => simp [splitOnCh]
  | cons c cs ih =>
    rw [splitOnCh]
    cases h : splitOnCh sep cs with
    | nil => simp
    | cons g gs =>
      split_ifs <;> simp

lemma splitOnCh_no_sep (sep : Char) (A : List Char)
    (h : ∀ c ∈ A, c ≠ sep) : splitOnCh sep A = [A] := by
  induction A with
  | nil => rfl
  | cons c A ih =>
    have hc : c ≠ sep := h c (List.mem_cons_self c A)
    rw [splitOnCh, ih (fun x hx => h x (List.mem_cons_of_mem c hx))]
    simp [hc]

lemma splitOnCh_append (sep : Char) (A B : List Char)
    (hA : ∀ c ∈ A, c ≠ sep) :
    splitOnCh sep (A ++ sep :: B) = A :: splitOnCh sep B := by
  induction A with
  | nil =>
    rw [List.nil_append, splitOnCh]
    cases h : splitOnCh sep B with
    | nil => exact absurd h (splitOnCh_ne_nil sep B)
    | cons g gs => simp
  | cons c A ih =>
    have hc : c ≠ sep := hA c (List.mem_cons_self c A)
    rw [List.cons_append, splitOnCh,
      ih (fun x hx => hA x (List.mem_cons_of_mem c hx))]
    simp [hc]

lemma parseUnsigned_format (a : ℕ) :
    parseUnsignedChars (natToChars (a / 100) ++ '.' :: pad2Chars (a % 100)) =
      some ((a : ℚ) / 100) := by
  have hA : ∀ c ∈ natToChars (a / 100), c ≠ '.' := fun c hc => by
    obtain ⟨d, hd, rfl⟩ := mem_natToChars hc
    exact (digitChar_facts hd).2.2.1
  have hB : ∀ c ∈ pad2Chars (a % 100), c ≠ '.' := fun c hc => by
    obtain ⟨d, hd, rfl⟩ := mem_pad2Chars hc
    exact (digitChar_facts hd).2.2.1
  have hsplit : splitOnCh '.' (natToChars (a / 100) ++ '.' :: pad2Chars (a % 100)) =
      [natToChars (a / 100), pad2Chars (a % 100)] := by
    rw [splitOnCh_append _ _ _ hA, splitOnCh_no_sep _ _ hB]
  have hm : a % 100 < 100 := Nat.mod_lt _ (by norm_num)
  rw [parseUnsignedChars, hsplit]
  simp only [parseDigits_natToChars, parseDigits_pad2Chars hm]
  have hlen : (pad2Chars (a % 100)).length = 2 := by simp [pad2Chars]
  rw [hlen]
  congr 1
  have hmod : (100 : ℚ) * ((a / 100 : ℕ) : ℚ) + ((a % 100 : ℕ) : ℚ) = (a : ℚ) := by
    exact_mod_cast Nat.div_add_mod a 100
  rw [eq_div_iff (by norm_num : (100 : ℚ) ≠ 0)]
  ring_nf
  ring_nf at hmod
  linarith

/-- C10: formatting a price with the 2-decimal fixed format of
format_rows and re-parsing the resulting text with float() yields
exactly the price rounded to 2 decimal places. -/
theorem spp_c10_price_roundtrip (x : ℚ) :
    parseFloatChars (format_price_2dp x) = some (round2 x) := by
  by_cases hx : x < 0
  · have hc : roundHalfEven (100 * x) ≤ 0 := by
      refine roundHalfEven_le (k := 0) ?_
      push_cast
      nlinarith
    rw [format_price_2dp, if_pos hx, List.singleton_append, List.cons_append,
      parseFloatChars, if_pos (by rw [List.head?_cons]), List.tail_cons,
      parseUnsigned_format]
    have habs : (((roundHalfEven (100 * x)).natAbs : ℕ) : ℚ) =
        -((roundHalfEven (100 * x) : ℤ) : ℚ) := by
      rw [Int.cast_natAbs, abs_of_nonpos hc]
      push_cast
      ring
    rw [round2, habs]
    ring_nf
  · have hc : 0 ≤ roundHalfEven (100 * x) := by
      refine le_roundHalfEven (k := 0) ?_
      push_cast
      nlinarith [not_lt.mp hx]
    have hh : (natToChars ((roundHalfEven (100 * x)).natAbs / 100) ++
        '.' :: pad2Chars ((roundHalfEven (100 * x)).natAbs % 100)).head? ≠
        some '-' := by
      obtain ⟨c0, cs0, heq⟩ :=
        List.exists_cons_of_ne_nil (natToChars_ne_nil
          ((roundHalfEven (100 * x)).natAbs / 100))
      rw [heq, List.cons_append, List.head?_cons]
      intro hcontra
      have hc0 : c0 = '-' := by
        injection hcontra
      have hmem : c0 ∈ natToChars ((roundHalfEven (100 * x)).natAbs / 100) := by
        rw [heq]
        exact List.mem_cons_self c0 cs0
      obtain ⟨d, hd, rfl⟩ := mem_natToChars hmem
      exact (digitChar_facts hd).2.2.2 hc0
    rw [format_price_2dp, if_neg hx, List.nil_append, parseFloatChars,
      if_neg hh, parseUnsigned_format]
    have habs : (((roundHalfEven (100 * x)).natAbs : ℕ) : ℚ) =
        ((roundHalfEven (100 * x) : ℤ) : ℚ) := by
      rw [Int.cast_natAbs, abs_of_nonneg hc]
    rw [round2, habs]

/-! ## format_rows (RowFormatter)

The row dicts passed to format_rows hold heterogeneous values: a date
and a number before the call, strings afterwards. The value type below
captures this, and the function is embedded in explicit-state style: the
loop assigns back into each row dict and the function returns the very
list it received, so the returned pair gives (returned list, state of
the caller's list after the call) and the two components coincide. -/

/-- A Python value held in a row dict: a string, a date or a float. -/
inductive PyVal where
  | str : List Char → PyVal
  | date : ℤ → PyVal
  | num : ℚ → PyVal
deriving DecidableEq, Repr

/-- A row dict with its field order stock id, timestamp, price. -/
structure PyRow where
  stockId : PyVal
  timestamp : PyVal
  price : PyVal
deriving DecidableEq, Repr

/-- Embedding of the float(-) conversion applied to a row value: a float
passes through, a string is parsed, and a date has no float conversion
(TypeError). -/
def pyFloat (v : PyVal) : Option ℚ :=
  match v with
  | .num q => some q
  | .str s => parseFloatChars s
  | .date _ => none

/-- Embedding of one iteration of the format_rows loop (source lines
132-134): overwrite the Timestamp field with its strftime rendering
(AttributeError unless it is a date) and the price field with its
2-decimal rendering (an error unless float() accepts it). -/
def format_row_inplace (r : PyRow) : Except PyErr PyRow :=
  match r.timestamp with
  | .date d =>
    match pyFloat r.price with
    | some q => .ok ⟨r.stockId, .str (strftime_dmy d), .str (format_price_2dp q)⟩
    | none => .error .valueError
  | _ => .error .attributeError

/-- Embedding of format_rows (source lines 122-136): format every row in
place and return the same list. The pair returned on success is
(return value, caller's list after the call); both are the mutated list. -/
def format_rows (rows : List PyRow) : Except PyErr (List PyRow × List PyRow) :=
  match mapExcept format_row_inplace rows with
  | .ok out => .ok (out, out)
  | .error e => .error e

/-- The value a well-typed row (date timestamp, float price) is mapped
to by the format_rows loop. -/
def formatTyped (r : PyRow) : PyRow :=
  match r.timestamp, r.price with
  | .date d, .num q =>
    ⟨r.stockId, .str (strftime_dmy d), .str (format_price_2dp q)⟩
  | _, _ => r

lemma format_row_inplace_typed {r : PyRow} {d : ℤ} {q : ℚ}
    (ht : r.timestamp = .date d) (hp : r.price = .num q) :
    format_row_inplace r = .ok (formatTyped r) := by
  rw [format_row_inplace, formatTyped, ht, hp]
  rfl

lemma mapExcept_format_typed (rows : List PyRow)
    (h : ∀ r ∈ rows, (∃ d, r.timestamp = PyVal.date d) ∧
      ∃ q, r.price = PyVal.num q) :
    mapExcept format_row_inplace rows = .ok (rows.map formatTyped) := by
  induction rows with
  | nil => rfl
  | cons r rs ih =>
    obtain ⟨⟨d, hd⟩, ⟨q, hq⟩⟩ := h r (List.mem_cons_self r rs)
    rw [mapExcept, format_row_inplace_typed hd hq,
      ih (fun x hx => h x (List.mem_cons_of_mem r hx)), List.map_cons]

/-- C9 counterexample: on a single well-typed row, format_rows succeeds
but the caller's list after the call differs from the list passed in —
the timestamp and price fields have been overwritten with their string
renderings, so format_rows does not leave its input rows unchanged. -/
theorem spp_c9_counterexample :
    (∃ out, format_rows [⟨.str ['A'], .date 0, .num 10⟩] = .ok (out, out) ∧
      out ≠ [⟨.str ['A'], .date 0, .num 10⟩]) := by
  have hwt : ∀ r ∈ ([⟨.str ['A'], .date 0, .num 10⟩] : List PyRow),
      (∃ d, r.timestamp = PyVal.date d) ∧ ∃ q, r.price = PyVal.num q := by
    intro r hr
    rcases List.mem_cons.mp hr with rfl | hr
    · exact ⟨⟨0, rfl⟩, ⟨10, rfl⟩⟩
    · cases hr
  refine ⟨[formatTyped ⟨.str ['A'], .date 0, .num 10⟩], ?_, ?_⟩
  · rw [format_rows, mapExcept_format_typed _ hwt]
    rfl
  · intro hcontra
    have h1 : formatTyped ⟨.str ['A'], .date 0, .num 10⟩ =
        (⟨.str ['A'], .date 0, .num 10⟩ : PyRow) := by
      simpa using hcontra
    have h2 := congrArg PyRow.timestamp h1
    simp [formatTyped] at h2

/-- C9 amended: format_rows renders every well-typed row with the
timestamp as a dash-separated day-month-year string, the price to
exactly 2 decimal places, the stock id passed through and row and field
order preserved, but it is not pure: it rewrites the rows in place, so
the caller's list after the call holds the formatted strings (the
returned list and the post-call input list are the same mutated list),
not the original values. -/
theorem spp_c9_format_inplace (rows : List PyRow)
    (h : ∀ r ∈ rows, (∃ d, r.timestamp = PyVal.date d) ∧
      ∃ q, r.price = PyVal.num q) :
    ∃ out, format_rows rows = .ok (out, out) ∧
      out.length = rows.length ∧
      ∀ i : ℕ, ∀ r, rows.get? i = some r → ∃ d q,
        r.timestamp = PyVal.date d ∧ r.price = PyVal.num q ∧
        out.get? i = some ⟨r.stockId, .str (strftime_dmy d),
          .str (format_price_2dp q)⟩ := by
  refine ⟨rows.map formatTyped, ?_, by simp, ?_⟩
  · rw [format_rows, mapExcept_format_typed rows h]
  · intro i r hr
    obtain ⟨⟨d, hd⟩, ⟨q, hq⟩⟩ := h r (List.get?_mem hr)
    refine ⟨d, q, hd, hq, ?_⟩
    have hft : formatTyped r =
        ⟨r.stockId, .str (strftime_dmy d), .str (format_price_2dp q)⟩ := by
      rw [formatTyped, hd, hq]
    rw [List.get?_map, hr]
    simp [hft]

/-- Witness for the amended C9 at a concrete one-row list. -/
theorem spp_c9_witness :
    (∀ r ∈ ([⟨.str ['A'], .date 0, .num 10⟩] : List PyRow),
      (∃ d, r.timestamp = PyVal.date d) ∧ ∃ q, r.price = PyVal.num q) ∧
    (∃ out, format_rows [⟨.str ['A'], .date 0, .num 10⟩] = .ok (out, out) ∧
      out.length = ([⟨.str ['A'], .date 0, .num 10⟩] : List PyRow).length ∧
      ∀ i : ℕ, ∀ r,
        ([⟨.str ['A'], .date 0, .num 10⟩] : List PyRow).get? i = some r →
        ∃ d q, r.timestamp = PyVal.date d ∧ r.price = PyVal.num q ∧
          out.get? i = some ⟨r.stockId, .str (strftime_dmy d),
            .str (format_price_2dp q)⟩) := by
  have h : ∀ r ∈ ([⟨.str ['A'], .date 0, .num 10⟩] : List PyRow),
      (∃ d, r.timestamp = PyVal.date d) ∧ ∃ q, r.price = PyVal.num q := by
    intro r hr
    rcases List.mem_cons.mp hr with rfl | hr
    · exact ⟨⟨0, rfl⟩, ⟨10, rfl⟩⟩
    · cases hr
  exact ⟨h, spp_c9_format_inplace _ h⟩

/-! ## Traversal layer: process_files_from_exchange

The directory listing is modelled as a list of entries (name, whether
the path is a regular file, and the file's lines). The loop is embedded
as the trace of files it touches: each qualifying CSV file contributes
one trace element carrying the rows written for it, or none when the
pipeline raised — in which case the exchange-level except clause catches
the exception and the loop stops. Directory enumeration and the CSV
writer itself are thin external I/O; the write payload is recorded. -/

/-- Display form of a row as written to the output CSV: the three
formatted fields in source order. -/
structure DisplayRow where
  stockId : List Char
  timestamp : List Char
  price : List Char
deriving DecidableEq, Repr

/-- The formatting applied to one typed row on the save path (the rows
reaching format_rows are exactly of this shape). -/
def format_typed_row (r : StockRow) : DisplayRow :=
  ⟨r.stockId, strftime_dmy r.timestamp, format_price_2dp r.price⟩

/-- Rows written for one file by save_predicted_stock_rows (source lines
139-171): the formatted rows, in order; its own errors (missing output
root, permissions) are caught inside it and are external I/O. -/
def save_payload (rows : List StockRow) : List DisplayRow :=
  rows.map format_typed_row

/-- ASCII lowercasing of one character, as str.lower acts on ASCII. -/
def lowerCh (c : Char) : Char :=
  if 'A' ≤ c ∧ c ≤ 'Z' then Char.ofNat (c.toNat + 32) else c

/-- Embedding of the file filter (source line 192): the lowercased name
ends with the csv suffix. -/
def isCsvName (name : List Char) : Bool :=
  ['.', 'c', 's', 'v'].isSuffixOf (name.map lowerCh)

/-- One directory entry of an exchange: its name, whether it is a
regular file, and its content lines. -/
structure DirEntry where
  name : List Char
  isFile : Bool
  lines : List (List Char)
deriving DecidableEq

/-- Embedding of the per-file pipeline body (source lines 193-195):
get_random_rows catches its own errors and may yield no window;
predict_next_values then raises TypeError iterating the missing window,
or raises its own IndexError; save catches its own errors and the
formatted rows are recorded. An error here is an exception escaping to
the exchange-level handler. -/
def process_one (randint : ℕ → ℕ → ℕ) (e : DirEntry) :
    Except PyErr (List DisplayRow) :=
  match get_random_rows e.lines randint with
  | none => .error .typeError
  | some rows =>
    match predict_next_values rows with
    | .error err => .error err
    | .ok pr => .ok (save_payload pr)

/-- Embedding of the loop of process_files_from_exchange (source lines
185-207) as the trace of touched files. A qualifying file is processed
and the counter incremented; after every entry the counter is compared
with n. An exception from the pipeline is caught by the function's
except clause, which prints and returns: the trace ends there. -/
def process_files_loop (randint : ℕ → ℕ → ℕ) (n : ℤ) :
    List DirEntry → ℤ → List (List Char × Option (List DisplayRow))
  | [], _ => []
  | e :: es, count =>
    if e.isFile && isCsvName e.name then
      match process_one randint e with
      | .error _ => [(e.name, none)]
      | .ok out =>
        if count + 1 = n then [(e.name, some out)]
        else (e.name, some out) :: process_files_loop randint n es (count + 1)
    else
      if count = n then []
      else process_files_loop randint n es count

/-- Embedding of process_files_from_exchange: run the loop over the
directory listing with a zero counter. -/
def process_files_from_exchange (randint : ℕ → ℕ → ℕ) (n : ℤ)
    (entries : List DirEntry) : List (List Char × Option (List DisplayRow)) :=
  process_files_loop randint n entries 0

lemma process_files_loop_length (randint : ℕ → ℕ → ℕ) (n : ℤ) :
    ∀ (entries : List DirEntry) (count : ℤ), count < n →
      (process_files_loop randint n entries count).length ≤ (n - count).toNat := by
  intro entries
  induction entries with
  | nil =>
    intro count h
    simp [process_files_loop]
  | cons e es ih =>
    intro count h
    rw [process_files_loop]
    by_cases hq : (e.isFile && isCsvName e.name) = true
    · rw [if_pos hq]
      cases hpo : process_one randint e with
      | error err =>
        simp only [List.length_singleton]
        omega
      | ok out =>
        show (if count + 1 = n then [(e.name, some out)]
          else (e.name, some out) ::
            process_files_loop randint n es (count + 1)).length ≤
          (n - count).toNat
        by_cases hcnt : count + 1 = n
        · rw [if_pos hcnt]
          simp only [List.length_singleton]
          omega
        · rw [if_neg hcnt]
          have h3 := ih (count + 1) (by omega)
          simp only [List.length_cons]
          omega
    · rw [if_neg hq]
      by_cases hcnt : count = n
      · rw [if_pos hcnt]
        simp
      · rw [if_neg hcnt]
        exact ih count h

/-- C8 counterexample: with the cap n set to 0 and a directory holding
one qualifying CSV file, the file is processed anyway — the counter is
compared with n only after the first file has been handled, so the trace
has one processed file, not at most zero. -/
theorem spp_c8_counterexample :
    ¬ ((process_files_from_exchange (fun (x : ℕ) (_ : ℕ) => x) 0
        [⟨"a.csv".data, true,
          ["A,01-01-2020,1".data, "A,02-01-2020,2".data]⟩]).length ≤ 0) := by
  have hrows : get_random_rows ["A,01-01-2020,1".data, "A,02-01-2020,2".data]
      (fun (x : ℕ) (_ : ℕ) => x) =
      some [⟨['A'], 18262, 1⟩, ⟨['A'], 18263, 2⟩] := by
    norm_num +decide [get_random_rows, generate_random_start_row, sample_loop,
      parseRowLine, trimChars, isSpaceCh, splitOnCh, parseDateChars,
      parseDigits, parseDigitsAux, isDigitCh, cd0, cd1, cd2, cd3, cd4, cd5,
      cd6, cd7, cd8, cd9, daysInMonth, isLeapYear, daysFromCivil,
      parseFloatChars, parseUnsignedChars, List.dropWhile]
  have hpred : predict_next_values [⟨['A'], 18262, 1⟩, ⟨['A'], 18263, 2⟩] =
      .ok [⟨['A'], 18262, 1⟩, ⟨['A'], 18263, 2⟩, ⟨['A'], 18264, 1⟩,
        ⟨['A'], 18265, 1.5⟩, ⟨['A'], 18266, 1.38⟩] := by
    norm_num [predict_next_values, sorted_unique_prices, sortDesc,
      List.dedup_cons_of_mem, List.dedup_cons_of_not_mem,
      List.insertionSort, List.orderedInsert, append_predicted, round2,
      roundHalfEven]
  norm_num +decide [process_files_from_exchange, process_files_loop,
    process_one, hrows, hpred, save_payload, isCsvName, lowerCh]

/-- C8 amended: for every positive cap n, at most n files of an exchange
are touched: the trace of processed files has length at most n, and once
n qualifying files have been processed the loop returns before touching
any further file. For n = 0 (or negative n) the cap is not enforced, as
the counterexample shows. -/
theorem spp_c8_cap (randint : ℕ → ℕ → ℕ) (n : ℤ) (entries : List DirEntry)
    (h : 1 ≤ n) :
    (process_files_from_exchange randint n entries).length ≤ n.toNat := by
  rw [process_files_from_exchange]
  have h2 := process_files_loop_length randint n entries 0 (by omega)
  simpa using h2

/-- Witness for the amended C8 at cap 1 over a one-file directory. -/
theorem spp_c8_witness :
    (1 : ℤ) ≤ 1 ∧
    (process_files_from_exchange (fun (x : ℕ) (_ : ℕ) => x) 1
      [⟨"a.csv".data, true,
        ["A,01-01-2020,1".data, "A,02-01-2020,2".data]⟩]).length ≤
      (1 : ℤ).toNat :=
  ⟨le_refl 1, spp_c8_cap _ 1 _ (le_refl 1)⟩

/-- C1 counterexample: a directory with a malformed CSV file followed by
a well-formed one. Sampling of the malformed file fails (get_random_rows
yields nothing after catching its parse error), the subsequent
predict_next_values call raises on the missing window, and the
exchange-level handler stops the loop: the trace holds only the failing
file, and the remaining file of the exchange is never processed. -/
theorem spp_c1_counterexample :
    get_random_rows ["garbage".data] (fun (x : ℕ) (_ : ℕ) => x) = none ∧
    process_files_from_exchange (fun (x : ℕ) (_ : ℕ) => x) 5
        [⟨"bad.csv".data, true, ["garbage".data]⟩,
         ⟨"good.csv".data, true,
           ["A,01-01-2020,1".data, "A,02-01-2020,2".data]⟩] =
      [("bad.csv".data, none)] := by
  constructor
  · decide
  · decide

/-- C1 amended: when the sampling of a qualifying CSV file fails, the
sampling error is caught inside get_random_rows (no window results), but
the forecast step then raises on the missing window; that exception is
caught by the exchange-level handler, which returns — so the exchange's
processing ends at the failing file and no later file of that exchange
is touched. -/
theorem spp_c1_error_scope (randint : ℕ → ℕ → ℕ) (n : ℤ) (count : ℤ)
    (e : DirEntry) (es : List DirEntry)
    (hq : (e.isFile && isCsvName e.name) = true)
    (hf : get_random_rows e.lines randint = none) :
    process_files_loop randint n (e :: es) count = [(e.name, none)] := by
  rw [process_files_loop, if_pos hq, process_one, hf]

/-- Witness for the amended C1: the failing file heads a directory that
still holds a well-formed file; processing stops at the failing file. -/
theorem spp_c1_witness :
    ((⟨"bad.csv".data, true, ["garbage".data]⟩ : DirEntry).isFile &&
      isCsvName (⟨"bad.csv".data, true,
        ["garbage".data]⟩ : DirEntry).name) = true ∧
    get_random_rows
      (⟨"bad.csv".data, true, ["garbage".data]⟩ : DirEntry).lines
      (fun (x : ℕ) (_ : ℕ) => x) = none ∧
    process_files_loop (fun (x : ℕ) (_ : ℕ) => x) 7
      [⟨"bad.csv".data, true, ["garbage".data]⟩,
       ⟨"good.csv".data, true, ["A,01-01-2020,1".data]⟩] 0 =
      [((⟨"bad.csv".data, true, ["garbage".data]⟩ : DirEntry).name, none)] :=
  ⟨by decide, by decide,
   spp_c1_error_scope _ 7 0 _ _ (by decide) (by decide)⟩

end SPP
